import Mathlib

/-!
Shallow embedding of the batch TTS engine of this repository, translated from
src/src/core/tts_generator.py.  The external edge-tts synthesis call is modelled
by an oracle (call number and request mapped to success or a failure message),
the filesystem and timing side effects (os.makedirs, asyncio.sleep) carry no
data and are not modelled, and the asyncio scheduling of batch_generate is
modelled by an explicit completion order and a semaphore transition system.
-/

/-- TTSTask dataclass (tts_generator.py lines 12-17). -/
structure TTSTask where
  text : String
  output_path : String
  index : Int
  deriving DecidableEq, Repr

/-- TTSResult dataclass (tts_generator.py lines 20-27). -/
structure TTSResult where
  index : Int
  output_path : String
  success : Bool
  text_preview : String
  error : String
  deriving DecidableEq, Repr

/-- The fields of one TTSGenerator instance (constructor, lines 41-58).  The
cancellation flag is one-way; within one modelled run it is held fixed, which
models every execution in which cancel() is not invoked in the middle of that
run. -/
structure TTSGenerator where
  voice : String
  rate : String
  volume : String
  pitch : String
  cancelled : Bool
  deriving DecidableEq, Repr

/-- FALLBACK_VOICES class constant (lines 34-39). -/
def FALLBACK_VOICES : List String :=
  ["zh-CN-XiaoxiaoNeural", "zh-CN-YunxiNeural", "zh-CN-XiaoyiNeural", "zh-CN-YunjianNeural"]

/-- The method _get_text_preview (lines 60-64), with max_length fixed at its
default value 50, the only value the file uses. -/
def getTextPreview (text : String) : String :=
  if text.length ≤ 50 then text else text.take 50 ++ "..."

/-- The keyword arguments of one edge_tts.Communicate call together with the
save destination (lines 108-123). -/
structure SynthRequest where
  text : String
  voice : String
  rate : String
  volume : String
  pitch : Option String
  output_path : String
  deriving DecidableEq, Repr

/-- Builds the request of lines 110-123: pitch is included only when it is
truthy and different from the string default (line 118). -/
def mkRequest (text voice rate volume pitch output_path : String) : SynthRequest :=
  { text := text, voice := voice, rate := rate, volume := volume,
    pitch := if pitch ≠ "" ∧ pitch ≠ "default" then some pitch else none,
    output_path := output_path }

/-- Oracle modelling the external edge-tts client: given the number of
synthesis calls already made in the current run and the request, it returns
none when the call succeeds and some message when it raises (line 122-128). -/
abbrev SynthOracle := Nat → SynthRequest → Option String

/-- The observable outcome of one generate_audio_async run: the returned pair
(success, error) of the Python method plus two pieces of instrumentation that
the claims talk about: calls is voices_tried, the voices actually submitted to
the synthesis client in call order (line 106), and iters is the number of loop
iterations that executed past the cancellation check of line 91. -/
structure GenRun where
  success : Bool
  error : String
  calls : List String
  iters : Nat
  deriving DecidableEq, Repr

/-- The candidate voice of one attempt index (lines 94-100): attempt 0 takes
the primary voice of the generator and attempt k positive takes
FALLBACK_VOICES[(k-1) mod len(FALLBACK_VOICES)].  Spec section 4.1 describes
selectVoice with exactly this formula, so the code-side and the spec-side
candidate coincide. -/
def attemptVoice (primary : String) (attempt : Nat) : String :=
  if attempt = 0 then primary
  else FALLBACK_VOICES.getD ((attempt - 1) % FALLBACK_VOICES.length) ""

/-- The retry loop of generate_audio_async (lines 87-132).  The two continue
statements of lines 101-102 and 104-105 are merged into one disjunctive guard
with the same target and state.  attempt is the Python loop variable, remaining
is how many values of range(max_retries) are left, so the loop of line 90 is
entered while remaining is positive. -/
def genLoop (g : TTSGenerator) (oracle : SynthOracle) (text output_path : String) :
    Nat → Nat → List String → String → GenRun
  | attempt, 0, voicesTried, lastError =>
      { success := false, error := "所有音色都失败，最后错误: " ++ lastError,
        calls := voicesTried, iters := attempt }
  | attempt, remaining + 1, voicesTried, lastError =>
      if g.cancelled then
        { success := false, error := "任务已取消", calls := voicesTried, iters := attempt }
      else
        if (attempt ≠ 0 ∧ attemptVoice g.voice attempt = g.voice) ∨
            attemptVoice g.voice attempt ∈ voicesTried then
          genLoop g oracle text output_path (attempt + 1) remaining voicesTried lastError
        else
          match oracle voicesTried.length
              (mkRequest text (attemptVoice g.voice attempt) g.rate g.volume g.pitch
                output_path) with
          | none =>
              { success := true, error := "",
                calls := voicesTried ++ [attemptVoice g.voice attempt],
                iters := attempt + 1 }
          | some msg =>
              genLoop g oracle text output_path (attempt + 1) remaining
                (voicesTried ++ [attemptVoice g.voice attempt]) msg

/-- generate_audio_async (lines 66-132): the cancellation check of line 79,
then the retry loop started with an empty tried list and empty last error.
The directory creation of lines 83-85 is a filesystem side effect carrying no
data into the result and is not modelled. -/
def generate_audio_async (g : TTSGenerator) (oracle : SynthOracle)
    (text output_path : String) (max_retries : Nat) : GenRun :=
  if g.cancelled then
    { success := false, error := "任务已取消", calls := [], iters := 0 }
  else
    genLoop g oracle text output_path 0 max_retries [] ""

/-- Default used only as the junk value of list lookups that the Python code
guards with an index bound. -/
def defaultTask : TTSTask := { text := "", output_path := "", index := 0 }

/-- Default used only as the junk value of guarded list lookups. -/
def defaultResult : TTSResult :=
  { index := 0, output_path := "", success := false, text_preview := "", error := "" }

/-- The observable behaviour of one process_task coroutine (lines 172-197):
its returned TTSResult together with the synthesis calls the nested
generate_audio_async run made (empty when the cancellation branch of lines
175-182 is taken) and the number of retry-loop iterations of that run. -/
structure TaskRun where
  result : TTSResult
  calls : List String
  iters : Nat
  deriving DecidableEq, Repr

/-- process_task (lines 172-197): the cancellation branch of lines 175-182,
otherwise generate_audio_async is awaited with the default max_retries = 3
(line 184 passes no third argument, the default is declared on line 67) and its
pair is repackaged into a TTSResult (lines 185-191). -/
def process_task (g : TTSGenerator) (oracle : SynthOracle) (task : TTSTask) : TaskRun :=
  if g.cancelled then
    { result := { index := task.index, output_path := task.output_path, success := false,
                  text_preview := getTextPreview task.text, error := "任务已取消" },
      calls := [], iters := 0 }
  else
    let run := generate_audio_async g oracle task.text task.output_path 3
    { result := { index := task.index, output_path := task.output_path, success := run.success,
                  text_preview := getTextPreview task.text, error := run.error },
      calls := run.calls, iters := run.iters }

/-- One entry of the asyncio.gather result of line 203: with
return_exceptions=True the i-th entry is either the exception the i-th
coroutine raised or its returned TTSResult.  fault models where an unexpected
internal exception (for example a failing os.makedirs or a raising progress
callback reached before the result is returned) interrupts the i-th coroutine:
fault i = some msg means that coroutine raised with message msg before
reaching its progress step, fault i = none that it ran to completion. -/
def gatherResults (g : TTSGenerator) (oracle : Nat → SynthOracle)
    (fault : Nat → Option String) : Nat → List TTSTask → List (Except String TTSResult)
  | _, [] => []
  | i, task :: rest =>
      (match fault i with
       | some msg => Except.error msg
       | none => Except.ok (process_task g (oracle i) task).result) ::
      gatherResults g oracle fault (i + 1) rest

/-- The exception-processing loop of batch_generate (lines 205-217): an
exception at position i is converted into a failed TTSResult built from
tasks[i] when i is in range (with the literal fallbacks of lines 210-213
otherwise), and str(exception) is its message. -/
def processedResults (tasks : List TTSTask) :
    Nat → List (Except String TTSResult) → List TTSResult
  | _, [] => []
  | i, Except.ok r :: rest => r :: processedResults tasks (i + 1) rest
  | i, Except.error msg :: rest =>
      { index := if i < tasks.length then (tasks.getD i defaultTask).index else (i : Int),
        output_path := if i < tasks.length then (tasks.getD i defaultTask).output_path else "",
        success := false,
        text_preview :=
          if i < tasks.length then getTextPreview (tasks.getD i defaultTask).text else "",
        error := msg } :: processedResults tasks (i + 1) rest

/-- batch_generate (lines 154-219): the coroutines of line 200 are gathered in
input order (line 203) and the exception-processing loop of lines 205-217 is
applied.  The returned list does not depend on the concurrency limit
max_concurrent; the semaphore of line 168 only schedules the coroutines and is
modelled separately by SemState below, and the progress stream of lines
193-195 is modelled separately by progressTrace. -/
def batch_generate (g : TTSGenerator) (oracle : Nat → SynthOracle)
    (fault : Nat → Option String) (tasks : List TTSTask) (max_concurrent : Nat) :
    List TTSResult :=
  processedResults tasks 0 (gatherResults g oracle fault 0 tasks)

/-- All synthesis calls a batch makes when no internal fault interrupts any
coroutine, concatenated in task order. -/
def batchCalls (g : TTSGenerator) (oracle : Nat → SynthOracle) :
    Nat → List TTSTask → List String
  | _, [] => []
  | i, task :: rest =>
      (process_task g (oracle i) task).calls ++ batchCalls g oracle (i + 1) rest

/-- The stream of progress_callback invocations of lines 193-195.  order lists
the task positions in completion order (asyncio may complete them in any
order, but the increment of completed and the callback of lines 193-195 run
without an intervening await, so the events of distinct tasks never
interleave).  A coroutine interrupted by an internal fault raises before
reaching lines 193-195, so it contributes no event and no increment. -/
def progressAux (g : TTSGenerator) (oracle : Nat → SynthOracle)
    (fault : Nat → Option String) (tasks : List TTSTask) (total : Nat) :
    Nat → List Nat → List (Nat × Nat × TTSResult)
  | _, [] => []
  | completed, p :: rest =>
      match fault p with
      | some _ => progressAux g oracle fault tasks total completed rest
      | none =>
          (completed + 1, total, (process_task g (oracle p) (tasks.getD p defaultTask)).result) ::
          progressAux g oracle fault tasks total (completed + 1) rest

/-- The full progress stream of one batch run whose tasks complete in the
given order: total is len(tasks) (line 169) and completed starts at 0
(line 170). -/
def progressTrace (g : TTSGenerator) (oracle : Nat → SynthOracle)
    (fault : Nat → Option String) (tasks : List TTSTask) (order : List Nat) :
    List (Nat × Nat × TTSResult) :=
  progressAux g oracle fault tasks tasks.length 0 order

/-- The voice-selection reference sequence, written from the words of spec
section 4.1: the candidate of attempt 0 is the primary, the candidate of
attempt k positive is fallbacks[(k-1) mod len(fallbacks)] with the fixed
fallback list FALLBACK_VOICES, and a candidate equal to the primary or already
in the tried set is skipped.  plannedFrom primary k remaining tried lists, in
order, the voices the remaining attempt indices starting at k would submit if
no call succeeded. -/
def plannedFrom (primary : String) : Nat → Nat → List String → List String
  | _, 0, _ => []
  | k, remaining + 1, tried =>
      if (k ≠ 0 ∧ attemptVoice primary k = primary) ∨ attemptVoice primary k ∈ tried then
        plannedFrom primary (k + 1) remaining tried
      else
        attemptVoice primary k :: plannedFrom primary (k + 1) remaining
          (tried ++ [attemptVoice primary k])

/-- The spec-side sequence of voices a whole retry run of max_retries attempt
indices submits while calls keep failing. -/
def plannedCalls (primary : String) (max_retries : Nat) : List String :=
  plannedFrom primary 0 max_retries []

/-- Phase of one batch coroutine with respect to the admission semaphore of
line 168: waiting before the async-with of line 174 admits it, running while
it holds a slot, done after the with-block exits. -/
inductive TaskPhase where
  | waiting
  | running
  | done
  deriving DecidableEq, Repr

/-- The shared state of the admission gate: the counter of the
asyncio.Semaphore of line 168 and the phase of every coroutine of the batch. -/
structure SemState where
  sem : Nat
  phases : List TaskPhase
  deriving DecidableEq, Repr

/-- The semaphore starts at max_concurrent (line 168) and every coroutine
starts waiting for admission. -/
def semInit (max_concurrent n : Nat) : SemState :=
  { sem := max_concurrent, phases := List.replicate n TaskPhase.waiting }

/-- Number of coroutines currently inside the async-with block, that is,
synthesizer invocations in flight. -/
def countRunning : List TaskPhase → Nat
  | [] => 0
  | p :: rest => (if p = TaskPhase.running then 1 else 0) + countRunning rest

/-- One scheduler step of the admission gate, modelling asyncio.Semaphore:
a waiting coroutine may enter the with-block only while the counter is
positive, decrementing it; a running coroutine may finish, incrementing the
counter.  A waiting coroutine with a zero counter is suspended and has no
step. -/
inductive SemStep : SemState → SemState → Prop
  | acquire (s : SemState) (i : Nat)
      (hw : s.phases.getD i TaskPhase.done = TaskPhase.waiting)
      (hs : 0 < s.sem) :
      SemStep s { sem := s.sem - 1, phases := s.phases.set i TaskPhase.running }
  | release (s : SemState) (i : Nat)
      (hr : s.phases.getD i TaskPhase.done = TaskPhase.running) :
      SemStep s { sem := s.sem + 1, phases := s.phases.set i TaskPhase.done }

/-- The states one batch run can reach from its initial state. -/
def SemReachable (max_concurrent n : Nat) (s : SemState) : Prop :=
  Relation.ReflTransGen SemStep (semInit max_concurrent n) s

/-! ## Helper lemmas on indexed list access -/

lemma getD_of_drop {α : Type*} (d : α) :
    ∀ (l : List α) (i : Nat) (t : α) (rest : List α), l.drop i = t :: rest → l.getD i d = t := by
  intro l
  induction l with
  | nil => intro i t rest h; simp at h
  | cons a l ih =>
    intro i t rest h
    cases i with
    | zero =>
        rw [List.drop_zero] at h
        rw [List.getD_cons_zero, (List.cons.injEq _ _ _ _).mp h |>.1]
    | succ i =>
        rw [List.drop_succ_cons] at h
        rw [List.getD_cons_succ]
        exact ih i t rest h

lemma lt_of_drop_cons {α : Type*} {l : List α} {i : Nat} {t : α} {rest : List α}
    (h : l.drop i = t :: rest) : i < l.length := by
  have hlen := congrArg List.length h
  rw [List.length_drop] at hlen
  simp only [List.length_cons] at hlen
  omega

lemma drop_succ_of_drop_cons {α : Type*} {l : List α} {i : Nat} {t : α} {rest : List α}
    (h : l.drop i = t :: rest) : l.drop (i + 1) = rest := by
  rw [← List.tail_drop, h]
  rfl

/-! ## Batch aggregation lemmas -/

/-- What the exception-processing loop delivers at position p: the coroutine
result when no fault interrupted it, and a failed result built from the task
and the exception message otherwise. -/
def expectedResult (g : TTSGenerator) (oracle : Nat → SynthOracle)
    (fault : Nat → Option String) (tasks : List TTSTask) (p : Nat) : TTSResult :=
  match fault p with
  | none => (process_task g (oracle p) (tasks.getD p defaultTask)).result
  | some msg =>
      { index := (tasks.getD p defaultTask).index,
        output_path := (tasks.getD p defaultTask).output_path,
        success := false,
        text_preview := getTextPreview (tasks.getD p defaultTask).text,
        error := msg }

lemma gatherResults_length (g : TTSGenerator) (oracle : Nat → SynthOracle)
    (fault : Nat → Option String) :
    ∀ (i : Nat) (ts : List TTSTask), (gatherResults g oracle fault i ts).length = ts.length := by
  intro i ts
  induction ts generalizing i with
  | nil => rfl
  | cons t rest ih => simp [gatherResults, ih]

lemma processedResults_length (tasks : List TTSTask) :
    ∀ (i : Nat) (rs : List (Except String TTSResult)),
      (processedResults tasks i rs).length = rs.length := by
  intro i rs
  induction rs generalizing i with
  | nil => rfl
  | cons r rest ih => cases r <;> simp [processedResults, ih]

lemma batch_generate_length (g : TTSGenerator) (oracle : Nat → SynthOracle)
    (fault : Nat → Option String) (tasks : List TTSTask) (max_concurrent : Nat) :
    (batch_generate g oracle fault tasks max_concurrent).length = tasks.length := by
  unfold batch_generate
  rw [processedResults_length, gatherResults_length]

/-- Pointwise characterisation of the list batch_generate assembles. -/
lemma batch_pointwise (g : TTSGenerator) (oracle : Nat → SynthOracle)
    (fault : Nat → Option String) (tasks : List TTSTask) :
    ∀ (ts : List TTSTask) (i j : Nat), tasks.drop i = ts → j < ts.length →
      (processedResults tasks i (gatherResults g oracle fault i ts)).getD j defaultResult =
        expectedResult g oracle fault tasks (i + j) := by
  intro ts
  induction ts with
  | nil => intro i j _ hj; simp at hj
  | cons t rest ih =>
    intro i j hdrop hj
    have hi : i < tasks.length := lt_of_drop_cons hdrop
    have hgd : tasks.getD i defaultTask = t := getD_of_drop defaultTask tasks i t rest hdrop
    have hdrop' : tasks.drop (i + 1) = rest := drop_succ_of_drop_cons hdrop
    simp only [gatherResults]
    cases hf : fault i with
    | none =>
      simp only [processedResults]
      cases j with
      | zero =>
        rw [List.getD_cons_zero, Nat.add_zero]
        unfold expectedResult
        rw [hf, hgd]
      | succ j =>
        rw [List.getD_cons_succ]
        rw [show i + (j + 1) = (i + 1) + j by omega]
        exact ih (i + 1) j hdrop' (by simpa using hj)
    | some msg =>
      simp only [processedResults]
      cases j with
      | zero =>
        rw [List.getD_cons_zero, Nat.add_zero]
        unfold expectedResult
        rw [hf]
        simp [hi, hgd]
      | succ j =>
        rw [List.getD_cons_succ]
        rw [show i + (j + 1) = (i + 1) + j by omega]
        exact ih (i + 1) j hdrop' (by simpa using hj)

lemma batch_generate_getD (g : TTSGenerator) (oracle : Nat → SynthOracle)
    (fault : Nat → Option String) (tasks : List TTSTask) (max_concurrent : Nat)
    (j : Nat) (hj : j < tasks.length) :
    (batch_generate g oracle fault tasks max_concurrent).getD j defaultResult =
      expectedResult g oracle fault tasks j := by
  have h := batch_pointwise g oracle fault tasks tasks 0 j (List.drop_zero tasks) hj
  rw [Nat.zero_add] at h
  exact h

lemma process_task_result_index (g : TTSGenerator) (o : SynthOracle) (t : TTSTask) :
    (process_task g o t).result.index = t.index := by
  unfold process_task; split <;> rfl

lemma process_task_result_path (g : TTSGenerator) (o : SynthOracle) (t : TTSTask) :
    (process_task g o t).result.output_path = t.output_path := by
  unfold process_task; split <;> rfl

lemma expectedResult_index (g : TTSGenerator) (oracle : Nat → SynthOracle)
    (fault : Nat → Option String) (tasks : List TTSTask) (p : Nat) :
    (expectedResult g oracle fault tasks p).index = (tasks.getD p defaultTask).index := by
  unfold expectedResult
  cases fault p
  · rw [process_task_result_index]
  · rfl

lemma expectedResult_path (g : TTSGenerator) (oracle : Nat → SynthOracle)
    (fault : Nat → Option String) (tasks : List TTSTask) (p : Nat) :
    (expectedResult g oracle fault tasks p).output_path =
      (tasks.getD p defaultTask).output_path := by
  unfold expectedResult
  cases fault p
  · rw [process_task_result_path]
  · rfl

/-! ## Shared concrete fixtures for witnesses and counterexamples -/

/-- A generator whose cancellation flag is clear, with a primary voice outside
the fallback pool. -/
def gOk : TTSGenerator :=
  { voice := "my-voice", rate := "+0%", volume := "+0%", pitch := "default", cancelled := false }

/-- A generator whose cancellation flag was set before the run. -/
def gCancelled : TTSGenerator :=
  { voice := "my-voice", rate := "+0%", volume := "+0%", pitch := "default", cancelled := true }

/-- An oracle whose every call fails with the same message. -/
def oracleFail : SynthOracle := fun _ _ => some "boom"

/-- An oracle whose every call succeeds. -/
def oracleOk : SynthOracle := fun _ _ => none

/-- A two-task batch fixture. -/
def tasksTwo : List TTSTask :=
  [{ text := "hello", output_path := "a.mp3", index := 1 },
   { text := "world", output_path := "b.mp3", index := 2 }]

/-! ## C1 -/

/-- C1: for every list of tasks, every concurrency limit and every pattern of
internal exceptions, batch_generate returns exactly one result per input task
and the i-th result carries the i-th task's index and output path; hence the
multiset of indices in the results equals the multiset of indices of the
tasks. -/
theorem c1_batch_completeness (g : TTSGenerator) (oracle : Nat → SynthOracle)
    (fault : Nat → Option String) (tasks : List TTSTask) (max_concurrent : Nat) :
    (batch_generate g oracle fault tasks max_concurrent).length = tasks.length ∧
    (batch_generate g oracle fault tasks max_concurrent).map (fun r => r.index) =
      tasks.map (fun t => t.index) ∧
    (batch_generate g oracle fault tasks max_concurrent).map (fun r => r.output_path) =
      tasks.map (fun t => t.output_path) := by
  have hlen := batch_generate_length g oracle fault tasks max_concurrent
  refine ⟨hlen, ?_, ?_⟩
  · apply List.ext_getElem (by simp [hlen])
    intro n h1 h2
    rw [List.getElem_map, List.getElem_map]
    have hn : n < tasks.length := by simpa using h2
    have hb : n < (batch_generate g oracle fault tasks max_concurrent).length := by
      rw [hlen]; exact hn
    have hg := batch_generate_getD g oracle fault tasks max_concurrent n hn
    rw [List.getD_eq_getElem _ _ hb] at hg
    rw [hg, expectedResult_index, List.getD_eq_getElem _ _ hn]
  · apply List.ext_getElem (by simp [hlen])
    intro n h1 h2
    rw [List.getElem_map, List.getElem_map]
    have hn : n < tasks.length := by simpa using h2
    have hb : n < (batch_generate g oracle fault tasks max_concurrent).length := by
      rw [hlen]; exact hn
    have hg := batch_generate_getD g oracle fault tasks max_concurrent n hn
    rw [List.getD_eq_getElem _ _ hb] at hg
    rw [hg, expectedResult_path, List.getD_eq_getElem _ _ hn]

/-! ## C7 -/

/-- C7: when the coroutine of one task raises an unexpected internal
exception, batch_generate does not raise: that task's entry in the returned
list is a failed result carrying the exception's message and the task's own
index and output path, while every task whose coroutine did not raise is still
processed and reported with its ordinary result. -/
theorem c7_internal_fault_isolated (g : TTSGenerator) (oracle : Nat → SynthOracle)
    (fault : Nat → Option String) (tasks : List TTSTask) (max_concurrent i : Nat)
    (msg : String) (hi : i < tasks.length) (hf : fault i = some msg) :
    (batch_generate g oracle fault tasks max_concurrent).getD i defaultResult =
      { index := (tasks.getD i defaultTask).index,
        output_path := (tasks.getD i defaultTask).output_path,
        success := false,
        text_preview := getTextPreview (tasks.getD i defaultTask).text,
        error := msg } ∧
    (batch_generate g oracle fault tasks max_concurrent).length = tasks.length ∧
    ∀ j, j < tasks.length → fault j = none →
      (batch_generate g oracle fault tasks max_concurrent).getD j defaultResult =
        (process_task g (oracle j) (tasks.getD j defaultTask)).result := by
  refine ⟨?_, batch_generate_length g oracle fault tasks max_concurrent, ?_⟩
  · rw [batch_generate_getD g oracle fault tasks max_concurrent i hi]
    unfold expectedResult
    rw [hf]
  · intro j hj hfj
    rw [batch_generate_getD g oracle fault tasks max_concurrent j hj]
    unfold expectedResult
    rw [hfj]

/-- Witness for C7 at a concrete batch in which the first coroutine raises. -/
theorem c7_internal_fault_isolated_witness :
    (0 < tasksTwo.length ∧
      (fun p => if p = 0 then some "boom" else none) 0 = some "boom") ∧
    (batch_generate gOk (fun _ => oracleOk) (fun p => if p = 0 then some "boom" else none)
        tasksTwo 5).getD 0 defaultResult =
      { index := (tasksTwo.getD 0 defaultTask).index,
        output_path := (tasksTwo.getD 0 defaultTask).output_path,
        success := false,
        text_preview := getTextPreview (tasksTwo.getD 0 defaultTask).text,
        error := "boom" } :=
  ⟨⟨by decide, rfl⟩,
    (c7_internal_fault_isolated gOk (fun _ => oracleOk)
      (fun p => if p = 0 then some "boom" else none) tasksTwo 5 0 "boom"
      (by decide) rfl).1⟩

/-! ## C5 -/

/-- C5: if the engine's cancellation flag is set before a task starts, that
task yields a failed outcome with the fixed cancelled message and makes no
synthesis call; in particular a batch run on an engine cancelled beforehand
yields one cancelled outcome per task and zero synthesis-client invocations. -/
theorem c5_cancel_before_run (g : TTSGenerator) (oracle : Nat → SynthOracle)
    (fault : Nat → Option String) (tasks : List TTSTask) (max_concurrent : Nat)
    (hc : g.cancelled = true) (hf : ∀ i, fault i = none) :
    (∀ (o : SynthOracle) (t : TTSTask),
        process_task g o t =
          { result := { index := t.index, output_path := t.output_path, success := false,
                        text_preview := getTextPreview t.text, error := "任务已取消" },
            calls := [], iters := 0 }) ∧
    (batch_generate g oracle fault tasks max_concurrent).length = tasks.length ∧
    (∀ r ∈ batch_generate g oracle fault tasks max_concurrent,
        r.success = false ∧ r.error = "任务已取消") ∧
    batchCalls g oracle 0 tasks = [] := by
  have hpt : ∀ (o : SynthOracle) (t : TTSTask),
      process_task g o t =
        { result := { index := t.index, output_path := t.output_path, success := false,
                      text_preview := getTextPreview t.text, error := "任务已取消" },
          calls := [], iters := 0 } := by
    intro o t
    simp [process_task, hc]
  refine ⟨hpt, batch_generate_length g oracle fault tasks max_concurrent, ?_, ?_⟩
  · intro r hr
    obtain ⟨n, hn, rfl⟩ := List.getElem_of_mem hr
    have hnl : n < tasks.length := by
      rw [batch_generate_length g oracle fault tasks max_concurrent] at hn
      exact hn
    have hg := batch_generate_getD g oracle fault tasks max_concurrent n hnl
    rw [List.getD_eq_getElem _ _ hn] at hg
    rw [hg]
    unfold expectedResult
    rw [hf n, hpt]
    exact ⟨rfl, rfl⟩
  · have hall : ∀ (i : Nat) (ts : List TTSTask), batchCalls g oracle i ts = [] := by
      intro i ts
      induction ts generalizing i with
      | nil => rfl
      | cons t rest ih => simp [batchCalls, hpt, ih]
    exact hall 0 tasks

/-- Witness for C5 at a concrete cancelled engine and two-task batch. -/
theorem c5_cancel_before_run_witness :
    gCancelled.cancelled = true ∧
    (batch_generate gCancelled (fun _ => oracleOk) (fun _ => none) tasksTwo 5).length =
      tasksTwo.length ∧
    batchCalls gCancelled (fun _ => oracleOk) 0 tasksTwo = [] :=
  ⟨rfl,
    (c5_cancel_before_run gCancelled (fun _ => oracleOk) (fun _ => none) tasksTwo 5
      rfl (fun _ => rfl)).2.1,
    (c5_cancel_before_run gCancelled (fun _ => oracleOk) (fun _ => none) tasksTwo 5
      rfl (fun _ => rfl)).2.2.2⟩

/-! ## First-success characterisation of the retry loop -/

/-- While the first n planned calls fail and the call after them succeeds, the
retry loop submits exactly the planned voices up to and including the
successful one and returns success immediately. -/
lemma genLoop_first_success (g : TTSGenerator) (oracle : SynthOracle)
    (text output_path : String) (hc : g.cancelled = false) :
    ∀ (remaining attempt : Nat) (tried : List String) (lastError : String)
      (n : Nat) (e : Nat → String),
      n < (plannedFrom g.voice attempt remaining tried).length →
      (∀ j, j < n → oracle (tried.length + j)
          (mkRequest text ((plannedFrom g.voice attempt remaining tried).getD j "")
            g.rate g.volume g.pitch output_path) = some (e j)) →
      oracle (tried.length + n)
          (mkRequest text ((plannedFrom g.voice attempt remaining tried).getD n "")
            g.rate g.volume g.pitch output_path) = none →
      (genLoop g oracle text output_path attempt remaining tried lastError).success = true ∧
      (genLoop g oracle text output_path attempt remaining tried lastError).error = "" ∧
      (genLoop g oracle text output_path attempt remaining tried lastError).calls =
        tried ++ (plannedFrom g.voice attempt remaining tried).take (n + 1) := by
  intro remaining
  induction remaining with
  | zero =>
    intro attempt tried lastError n e hn _ _
    simp [plannedFrom] at hn
  | succ r ih =>
    intro attempt tried lastError n e hn hfail hsucc
    by_cases hskip :
        (attempt ≠ 0 ∧ attemptVoice g.voice attempt = g.voice) ∨
          attemptVoice g.voice attempt ∈ tried
    · have hplan : plannedFrom g.voice attempt (r + 1) tried =
          plannedFrom g.voice (attempt + 1) r tried := by
        simp only [plannedFrom, if_pos hskip]
      rw [hplan] at hn hfail hsucc
      have hloop : genLoop g oracle text output_path attempt (r + 1) tried lastError =
          genLoop g oracle text output_path (attempt + 1) r tried lastError := by
        simp only [genLoop, hc, Bool.false_eq_true, if_false, if_pos hskip]
      rw [hloop, hplan]
      exact ih (attempt + 1) tried lastError n e hn hfail hsucc
    · have hplan : plannedFrom g.voice attempt (r + 1) tried =
          attemptVoice g.voice attempt ::
            plannedFrom g.voice (attempt + 1) r (tried ++ [attemptVoice g.voice attempt]) := by
        simp only [plannedFrom, if_neg hskip]
      cases n with
      | zero =>
        rw [hplan, List.getD_cons_zero, Nat.add_zero] at hsucc
        have hloop : genLoop g oracle text output_path attempt (r + 1) tried lastError =
            { success := true, error := "",
              calls := tried ++ [attemptVoice g.voice attempt], iters := attempt + 1 } := by
          simp only [genLoop, hc, Bool.false_eq_true, if_false, if_neg hskip, hsucc]
        rw [hloop, hplan, List.take_succ_cons, List.take_zero]
        exact ⟨rfl, rfl, rfl⟩
      | succ m =>
        have hfail0 := hfail 0 (Nat.succ_pos m)
        rw [hplan, List.getD_cons_zero, Nat.add_zero] at hfail0
        have hloop : genLoop g oracle text output_path attempt (r + 1) tried lastError =
            genLoop g oracle text output_path (attempt + 1) r
              (tried ++ [attemptVoice g.voice attempt]) (e 0) := by
          simp only [genLoop, hc, Bool.false_eq_true, if_false, if_neg hskip, hfail0]
        have hlen : (tried ++ [attemptVoice g.voice attempt]).length = tried.length + 1 := by
          simp
        have hn' : m < (plannedFrom g.voice (attempt + 1) r
            (tried ++ [attemptVoice g.voice attempt])).length := by
          rw [hplan] at hn
          simpa using hn
        have hfail' : ∀ j, j < m →
            oracle ((tried ++ [attemptVoice g.voice attempt]).length + j)
              (mkRequest text
                ((plannedFrom g.voice (attempt + 1) r
                  (tried ++ [attemptVoice g.voice attempt])).getD j "")
                g.rate g.volume g.pitch output_path) = some (e (j + 1)) := by
          intro j hj
          have := hfail (j + 1) (Nat.succ_lt_succ hj)
          rw [hplan, List.getD_cons_succ] at this
          rw [hlen]
          rw [show tried.length + 1 + j = tried.length + (j + 1) by omega]
          exact this
        have hsucc' :
            oracle ((tried ++ [attemptVoice g.voice attempt]).length + m)
              (mkRequest text
                ((plannedFrom g.voice (attempt + 1) r
                  (tried ++ [attemptVoice g.voice attempt])).getD m "")
                g.rate g.volume g.pitch output_path) = none := by
          rw [hplan, List.getD_cons_succ] at hsucc
          rw [hlen]
          rw [show tried.length + 1 + m = tried.length + (m + 1) by omega]
          exact hsucc
        obtain ⟨h1, h2, h3⟩ := ih (attempt + 1) (tried ++ [attemptVoice g.voice attempt])
          (e 0) m (fun i => e (i + 1)) hn' hfail' hsucc'
        rw [hloop]
        refine ⟨h1, h2, ?_⟩
        rw [h3, hplan, List.take_succ_cons, List.append_assoc]
        rfl

/-! ## C2 -/

/-- C2: attempt 0 uses the primary voice and attempt k positive uses
FALLBACK_VOICES[(k-1) mod len], skipping candidates equal to the primary or
already tried (the content of plannedCalls, written from spec section 4.1);
as soon as one synthesis call succeeds the run returns success immediately,
having submitted exactly the planned voices up to and including the successful
one and nothing after it. -/
theorem c2_fallback_rotation_first_success (g : TTSGenerator) (oracle : SynthOracle)
    (text output_path : String) (max_retries n : Nat) (e : Nat → String)
    (hc : g.cancelled = false)
    (hn : n < (plannedCalls g.voice max_retries).length)
    (hfail : ∀ j, j < n →
      oracle j (mkRequest text ((plannedCalls g.voice max_retries).getD j "")
        g.rate g.volume g.pitch output_path) = some (e j))
    (hsucc : oracle n (mkRequest text ((plannedCalls g.voice max_retries).getD n "")
        g.rate g.volume g.pitch output_path) = none) :
    (generate_audio_async g oracle text output_path max_retries).success = true ∧
    (generate_audio_async g oracle text output_path max_retries).error = "" ∧
    (generate_audio_async g oracle text output_path max_retries).calls =
      (plannedCalls g.voice max_retries).take (n + 1) := by
  have hmain := genLoop_first_success g oracle text output_path hc max_retries 0 [] "" n e
    (by simpa [plannedCalls] using hn)
    (by intro j hj; simpa [plannedCalls] using hfail j hj)
    (by simpa [plannedCalls] using hsucc)
  unfold generate_audio_async
  rw [hc]
  simpa [plannedCalls] using hmain

/-- Witness for C2: with the primary voice of gOk and the real fallback list,
the first two calls fail and the third succeeds, so the attempted sequence is
exactly the primary, the first fallback and the second fallback. -/
theorem c2_fallback_rotation_first_success_witness :
    2 < (plannedCalls gOk.voice 5).length ∧
    (generate_audio_async gOk (fun k _ => if k < 2 then some "boom" else none) "t" "o" 5).success
      = true ∧
    (generate_audio_async gOk (fun k _ => if k < 2 then some "boom" else none) "t" "o" 5).calls
      = (plannedCalls gOk.voice 5).take 3 := by
  have h := c2_fallback_rotation_first_success gOk
    (fun k _ => if k < 2 then some "boom" else none) "t" "o" 5 2 (fun _ => "boom")
    rfl (by decide)
    (by intro j hj; simp only [if_pos hj])
    (by decide)
  exact ⟨by decide, h.1, h.2.2⟩

/-! ## All-fail characterisation of the retry loop -/

/-- When every synthesis call fails, the loop walks all remaining attempt
indices, submits exactly the planned voices, and reports the all-voices-failed
message built from the answer of the last call made (or from the incoming
last error when no call is made). -/
lemma genLoop_allfail (g : TTSGenerator) (oracle : SynthOracle) (text output_path : String)
    (hc : g.cancelled = false) (hfail : ∀ j req, oracle j req ≠ none) :
    ∀ (remaining attempt : Nat) (tried : List String) (lastError : String),
      (genLoop g oracle text output_path attempt remaining tried lastError).success = false ∧
      (genLoop g oracle text output_path attempt remaining tried lastError).iters =
        attempt + remaining ∧
      (genLoop g oracle text output_path attempt remaining tried lastError).calls =
        tried ++ plannedFrom g.voice attempt remaining tried ∧
      (genLoop g oracle text output_path attempt remaining tried lastError).error =
        "所有音色都失败，最后错误: " ++
          (if plannedFrom g.voice attempt remaining tried = [] then lastError
           else (oracle
              (tried.length + (plannedFrom g.voice attempt remaining tried).length - 1)
              (mkRequest text
                ((plannedFrom g.voice attempt remaining tried).getLast?.getD "")
                g.rate g.volume g.pitch output_path)).getD "") := by
  intro remaining
  induction remaining with
  | zero =>
    intro attempt tried lastError
    exact ⟨rfl, rfl, by simp [genLoop, plannedFrom], by simp [genLoop, plannedFrom]⟩
  | succ r ih =>
    intro attempt tried lastError
    by_cases hskip :
        (attempt ≠ 0 ∧ attemptVoice g.voice attempt = g.voice) ∨
          attemptVoice g.voice attempt ∈ tried
    · have hplan : plannedFrom g.voice attempt (r + 1) tried =
          plannedFrom g.voice (attempt + 1) r tried := by
        simp only [plannedFrom, if_pos hskip]
      have hloop : genLoop g oracle text output_path attempt (r + 1) tried lastError =
          genLoop g oracle text output_path (attempt + 1) r tried lastError := by
        simp only [genLoop, hc, Bool.false_eq_true, if_false, if_pos hskip]
      obtain ⟨h1, h2, h3, h4⟩ := ih (attempt + 1) tried lastError
      rw [hloop, hplan]
      exact ⟨h1, by rw [h2]; omega, h3, h4⟩
    · cases horacle : oracle tried.length
          (mkRequest text (attemptVoice g.voice attempt) g.rate g.volume g.pitch
            output_path) with
      | none => exact absurd horacle (hfail _ _)
      | some msg =>
        have hplan : plannedFrom g.voice attempt (r + 1) tried =
            attemptVoice g.voice attempt ::
              plannedFrom g.voice (attempt + 1) r
                (tried ++ [attemptVoice g.voice attempt]) := by
          simp only [plannedFrom, if_neg hskip]
        have hloop : genLoop g oracle text output_path attempt (r + 1) tried lastError =
            genLoop g oracle text output_path (attempt + 1) r
              (tried ++ [attemptVoice g.voice attempt]) msg := by
          simp only [genLoop, hc, Bool.false_eq_true, if_false, if_neg hskip, horacle]
        obtain ⟨h1, h2, h3, h4⟩ := ih (attempt + 1) (tried ++ [attemptVoice g.voice attempt]) msg
        rw [hloop, hplan]
        refine ⟨h1, by rw [h2]; omega, ?_, ?_⟩
        · rw [h3, List.append_assoc]
          rfl
        · rw [h4]
          rcases hrest : plannedFrom g.voice (attempt + 1) r
              (tried ++ [attemptVoice g.voice attempt]) with _ | ⟨x, xs⟩
          · simp only [hrest, if_pos rfl] at h4 ⊢
            have hcons : (attemptVoice g.voice attempt ::
                ([] : List String)) ≠ [] := by simp
            rw [if_neg hcons]
            simp [horacle]
          · have hcons : (attemptVoice g.voice attempt :: x :: xs) ≠ [] := by simp
            have hrest' : (x :: xs : List String) ≠ [] := by simp
            rw [if_neg hcons, if_neg hrest']
            have hlast : (attemptVoice g.voice attempt :: x :: xs).getLast? =
                (x :: xs).getLast? := List.getLast?_cons_cons
            rw [hlast]
            have hlen : tried.length + (attemptVoice g.voice attempt :: x :: xs).length - 1 =
                (tried ++ [attemptVoice g.voice attempt]).length + (x :: xs).length - 1 := by
              simp
              omega
            rw [hlen]

/-! ## Structure of the planned call sequence -/

lemma attemptVoice_mem (primary : String) (k : Nat) :
    attemptVoice primary k = primary ∨ attemptVoice primary k ∈ FALLBACK_VOICES := by
  unfold attemptVoice
  by_cases hk : k = 0
  · left; rw [if_pos hk]
  · right
    rw [if_neg hk]
    have hlen : FALLBACK_VOICES.length = 4 := rfl
    have hb : (k - 1) % FALLBACK_VOICES.length < FALLBACK_VOICES.length := by
      rw [hlen]; exact Nat.mod_lt _ (by omega)
    rw [List.getD_eq_getElem _ _ hb]
    exact List.getElem_mem hb

lemma plannedFrom_mem (primary : String) :
    ∀ (remaining k : Nat) (tried : List String) (v : String),
      v ∈ plannedFrom primary k remaining tried →
      v = primary ∨ v ∈ FALLBACK_VOICES := by
  intro remaining
  induction remaining with
  | zero => intro k tried v hv; simp [plannedFrom] at hv
  | succ r ih =>
    intro k tried v hv
    by_cases hskip :
        (k ≠ 0 ∧ attemptVoice primary k = primary) ∨ attemptVoice primary k ∈ tried
    · rw [show plannedFrom primary k (r + 1) tried = plannedFrom primary (k + 1) r tried from
        by simp only [plannedFrom, if_pos hskip]] at hv
      exact ih (k + 1) tried v hv
    · rw [show plannedFrom primary k (r + 1) tried =
          attemptVoice primary k ::
            plannedFrom primary (k + 1) r (tried ++ [attemptVoice primary k]) from
        by simp only [plannedFrom, if_neg hskip]] at hv
      rcases List.mem_cons.mp hv with hv | hv
      · rw [hv]; exact attemptVoice_mem primary k
      · exact ih (k + 1) (tried ++ [attemptVoice primary k]) v hv

lemma plannedFrom_nodup (primary : String) :
    ∀ (remaining k : Nat) (tried : List String), tried.Nodup →
      (tried ++ plannedFrom primary k remaining tried).Nodup := by
  intro remaining
  induction remaining with
  | zero => intro k tried h; simpa [plannedFrom] using h
  | succ r ih =>
    intro k tried h
    by_cases hskip :
        (k ≠ 0 ∧ attemptVoice primary k = primary) ∨ attemptVoice primary k ∈ tried
    · rw [show plannedFrom primary k (r + 1) tried = plannedFrom primary (k + 1) r tried from
        by simp only [plannedFrom, if_pos hskip]]
      exact ih (k + 1) tried h
    · rw [show plannedFrom primary k (r + 1) tried =
          attemptVoice primary k ::
            plannedFrom primary (k + 1) r (tried ++ [attemptVoice primary k]) from
        by simp only [plannedFrom, if_neg hskip]]
      have hnmem : attemptVoice primary k ∉ tried := fun hmem => hskip (Or.inr hmem)
      have h' : (tried ++ [attemptVoice primary k]).Nodup := by
        simp [List.nodup_append, h, hnmem]
      have := ih (k + 1) (tried ++ [attemptVoice primary k]) h'
      rw [List.append_assoc] at this
      exact this

/-- Once every fallback voice is the primary or already tried, every later
attempt index is skipped and no further call is planned. -/
lemma plannedFrom_skip (primary : String) :
    ∀ (remaining k : Nat) (tried : List String), 1 ≤ k →
      (∀ v ∈ FALLBACK_VOICES, v = primary ∨ v ∈ tried) →
      plannedFrom primary k remaining tried = [] := by
  intro remaining
  induction remaining with
  | zero => intro k tried _ _; rfl
  | succ r ih =>
    intro k tried hk hsub
    have hkne : k ≠ 0 := by omega
    have hmem : attemptVoice primary k ∈ FALLBACK_VOICES := by
      rcases attemptVoice_mem primary k with h | h
      · unfold attemptVoice at h ⊢
        rw [if_neg hkne] at h ⊢
        rw [h]
        have hlen : FALLBACK_VOICES.length = 4 := rfl
        have hb : (k - 1) % FALLBACK_VOICES.length < FALLBACK_VOICES.length := by
          rw [hlen]; exact Nat.mod_lt _ (by omega)
        rw [← h]
        rw [List.getD_eq_getElem _ _ hb]
        exact List.getElem_mem hb
      · exact h
    have hskip :
        (k ≠ 0 ∧ attemptVoice primary k = primary) ∨ attemptVoice primary k ∈ tried := by
      rcases hsub _ hmem with h | h
      · exact Or.inl ⟨hkne, h⟩
      · exact Or.inr h
    rw [show plannedFrom primary k (r + 1) tried = plannedFrom primary (k + 1) r tried from
      by simp only [plannedFrom, if_pos hskip]]
    exact ih (k + 1) tried (by omega) hsub

/-- Splitting a planned run after its first r attempt indices. -/
lemma plannedFrom_append (primary : String) :
    ∀ (r d k : Nat) (tried : List String),
      plannedFrom primary k (r + d) tried =
        plannedFrom primary k r tried ++
          plannedFrom primary (k + r) d (tried ++ plannedFrom primary k r tried) := by
  intro r
  induction r with
  | zero =>
    intro d k tried
    simp [plannedFrom]
  | succ r ih =>
    intro d k tried
    have harith : (r + 1) + d = (r + d) + 1 := by omega
    rw [harith]
    by_cases hskip :
        (k ≠ 0 ∧ attemptVoice primary k = primary) ∨ attemptVoice primary k ∈ tried
    · rw [show plannedFrom primary k ((r + d) + 1) tried =
          plannedFrom primary (k + 1) (r + d) tried from
        by simp only [plannedFrom, if_pos hskip]]
      rw [show plannedFrom primary k (r + 1) tried = plannedFrom primary (k + 1) r tried from
        by simp only [plannedFrom, if_pos hskip]]
      rw [show k + (r + 1) = (k + 1) + r by omega]
      exact ih d (k + 1) tried
    · rw [show plannedFrom primary k ((r + d) + 1) tried =
          attemptVoice primary k ::
            plannedFrom primary (k + 1) (r + d) (tried ++ [attemptVoice primary k]) from
        by simp only [plannedFrom, if_neg hskip]]
      rw [show plannedFrom primary k (r + 1) tried =
          attemptVoice primary k ::
            plannedFrom primary (k + 1) r (tried ++ [attemptVoice primary k]) from
        by simp only [plannedFrom, if_neg hskip]]
      rw [ih d (k + 1) (tried ++ [attemptVoice primary k])]
      rw [show k + (r + 1) = (k + 1) + r by omega]
      simp [List.append_assoc]

lemma plannedFrom_cons (primary : String) (k r : Nat) (tried : List String)
    (h : ¬((k ≠ 0 ∧ attemptVoice primary k = primary) ∨ attemptVoice primary k ∈ tried)) :
    plannedFrom primary k (r + 1) tried =
      attemptVoice primary k ::
        plannedFrom primary (k + 1) r (tried ++ [attemptVoice primary k]) := by
  simp only [plannedFrom, if_neg h]

/-- With at least five attempt indices available, a run in which every call
fails tries the primary first and then every fallback voice other than the
primary, each exactly once, and nothing beyond. -/
lemma plannedCalls_full (primary : String) (d : Nat) :
    plannedCalls primary (5 + d) =
      primary :: FALLBACK_VOICES.filter (fun v => v ≠ primary) := by
  have hP5 : plannedFrom primary 0 5 [] =
      primary :: FALLBACK_VOICES.filter (fun v => v ≠ primary) := by
    by_cases h0 : primary = "zh-CN-XiaoxiaoNeural"
    · subst h0; decide
    · by_cases h1 : primary = "zh-CN-YunxiNeural"
      · subst h1; decide
      · by_cases h2 : primary = "zh-CN-XiaoyiNeural"
        · subst h2; decide
        · by_cases h3 : primary = "zh-CN-YunjianNeural"
          · subst h3; decide
          · have e0 : "zh-CN-XiaoxiaoNeural" ≠ primary := fun h => h0 h.symm
            have e1 : "zh-CN-YunxiNeural" ≠ primary := fun h => h1 h.symm
            have e2 : "zh-CN-XiaoyiNeural" ≠ primary := fun h => h2 h.symm
            have e3 : "zh-CN-YunjianNeural" ≠ primary := fun h => h3 h.symm
            have hv0 : attemptVoice primary 0 = primary := rfl
            have hv1 : attemptVoice primary 1 = "zh-CN-XiaoxiaoNeural" := rfl
            have hv2 : attemptVoice primary 2 = "zh-CN-YunxiNeural" := rfl
            have hv3 : attemptVoice primary 3 = "zh-CN-XiaoyiNeural" := rfl
            have hv4 : attemptVoice primary 4 = "zh-CN-YunjianNeural" := rfl
            have hg0 : ¬((0 ≠ 0 ∧ attemptVoice primary 0 = primary) ∨
                attemptVoice primary 0 ∈ ([] : List String)) := by simp
            have hg1 : ¬((1 ≠ 0 ∧ attemptVoice primary 1 = primary) ∨
                attemptVoice primary 1 ∈ [primary]) := by
              rw [hv1]; simp [e0]
            have hg2 : ¬((2 ≠ 0 ∧ attemptVoice primary 2 = primary) ∨
                attemptVoice primary 2 ∈ [primary, "zh-CN-XiaoxiaoNeural"]) := by
              rw [hv2]; simp [e1]
            have hg3 : ¬((3 ≠ 0 ∧ attemptVoice primary 3 = primary) ∨
                attemptVoice primary 3 ∈
                  [primary, "zh-CN-XiaoxiaoNeural", "zh-CN-YunxiNeural"]) := by
              rw [hv3]; simp [e2]
            have hg4 : ¬((4 ≠ 0 ∧ attemptVoice primary 4 = primary) ∨
                attemptVoice primary 4 ∈
                  [primary, "zh-CN-XiaoxiaoNeural", "zh-CN-YunxiNeural",
                    "zh-CN-XiaoyiNeural"]) := by
              rw [hv4]; simp [e3]
            have t0 := plannedFrom_cons primary 0 4 [] hg0
            rw [hv0, List.nil_append] at t0
            have t1 := plannedFrom_cons primary 1 3 [primary] hg1
            rw [hv1] at t1
            simp only [List.cons_append, List.nil_append] at t1
            have t2 := plannedFrom_cons primary 2 2 [primary, "zh-CN-XiaoxiaoNeural"] hg2
            rw [hv2] at t2
            simp only [List.cons_append, List.nil_append] at t2
            have t3 := plannedFrom_cons primary 3 1
              [primary, "zh-CN-XiaoxiaoNeural", "zh-CN-YunxiNeural"] hg3
            rw [hv3] at t3
            simp only [List.cons_append, List.nil_append] at t3
            have t4 := plannedFrom_cons primary 4 0
              [primary, "zh-CN-XiaoxiaoNeural", "zh-CN-YunxiNeural", "zh-CN-XiaoyiNeural"] hg4
            rw [hv4] at t4
            simp only [List.cons_append, List.nil_append] at t4
            have hfilt :
                FALLBACK_VOICES.filter (fun v => v ≠ primary) = FALLBACK_VOICES := by
              simp [FALLBACK_VOICES, e0, e1, e2, e3]
            rw [t0, t1, t2, t3, t4, hfilt]
            rfl
  have happ := plannedFrom_append primary 5 d 0 []
  have htail : plannedFrom primary (0 + 5) d ([] ++ plannedFrom primary 0 5 []) = [] := by
    apply plannedFrom_skip primary d (0 + 5) _ (by omega)
    intro v hv
    rw [List.nil_append, hP5]
    by_cases hvp : v = primary
    · exact Or.inl hvp
    · refine Or.inr ?_
      rw [List.mem_cons]
      refine Or.inr ?_
      rw [List.mem_filter]
      exact ⟨hv, by simpa using hvp⟩
  unfold plannedCalls
  rw [happ, htail, List.append_nil, hP5]

/-- The generator with the Python default primary voice, which is also the
first fallback voice. -/
def gDefault : TTSGenerator :=
  { voice := "zh-CN-XiaoxiaoNeural", rate := "+0%", volume := "+0%", pitch := "default",
    cancelled := false }

/-! ## C3 -/

/-- Counterexample to C3 as stated: with the default primary voice, ten
attempt indices and every call failing, all four distinct candidate voices
have been tried after the fifth attempt index, yet the loop yields no
exhausted signal and runs through all ten attempt indices instead of stopping
early. -/
theorem c3_counterexample :
    (generate_audio_async gDefault oracleFail "t" "o" 10).calls = FALLBACK_VOICES ∧
    (generate_audio_async gDefault oracleFail "t" "o" 10).iters = 10 ∧
    ¬ (generate_audio_async gDefault oracleFail "t" "o" 10).iters < 10 := by
  decide

/-- C3 amended: the code has no distinct exhausted signal and the retry loop
never stops early: in an uncancelled run where every call fails it walks all
max_retries attempt indices; once every distinct voice among the primary and
the fallbacks has been tried the remaining indices are merely skipped, so no
voice is submitted twice and the number of synthesis calls never exceeds the
number of distinct candidates, however large max_retries is. -/
theorem c3_no_early_stop (g : TTSGenerator) (oracle : SynthOracle)
    (text output_path : String) (max_retries : Nat)
    (hc : g.cancelled = false) (hfail : ∀ j req, oracle j req ≠ none) :
    (generate_audio_async g oracle text output_path max_retries).iters = max_retries ∧
    (generate_audio_async g oracle text output_path max_retries).success = false ∧
    (generate_audio_async g oracle text output_path max_retries).calls.Nodup ∧
    (∀ v ∈ (generate_audio_async g oracle text output_path max_retries).calls,
      v = g.voice ∨ v ∈ FALLBACK_VOICES) ∧
    (generate_audio_async g oracle text output_path max_retries).calls.length ≤
      FALLBACK_VOICES.length + 1 := by
  obtain ⟨h1, h2, h3, _⟩ :=
    genLoop_allfail g oracle text output_path hc hfail max_retries 0 [] ""
  have hgen : generate_audio_async g oracle text output_path max_retries =
      genLoop g oracle text output_path 0 max_retries [] "" := by
    simp only [generate_audio_async, hc, Bool.false_eq_true, if_false]
  rw [hgen]
  rw [List.nil_append] at h3
  have hnodup : (genLoop g oracle text output_path 0 max_retries [] "").calls.Nodup := by
    rw [h3]
    have := plannedFrom_nodup g.voice max_retries 0 [] List.nodup_nil
    simpa using this
  have hmem : ∀ v ∈ (genLoop g oracle text output_path 0 max_retries [] "").calls,
      v = g.voice ∨ v ∈ FALLBACK_VOICES := by
    rw [h3]
    exact fun v hv => plannedFrom_mem g.voice max_retries 0 [] v hv
  refine ⟨by rw [h2]; omega, h1, hnodup, hmem, ?_⟩
  have hsub : (genLoop g oracle text output_path 0 max_retries [] "").calls.toFinset ⊆
      (g.voice :: FALLBACK_VOICES).toFinset := by
    intro x hx
    rw [List.mem_toFinset] at hx
    rw [List.mem_toFinset, List.mem_cons]
    exact hmem x hx
  calc (genLoop g oracle text output_path 0 max_retries [] "").calls.length
      = (genLoop g oracle text output_path 0 max_retries [] "").calls.toFinset.card :=
        (List.toFinset_card_of_nodup hnodup).symm
    _ ≤ (g.voice :: FALLBACK_VOICES).toFinset.card := Finset.card_le_card hsub
    _ ≤ (g.voice :: FALLBACK_VOICES).length := List.toFinset_card_le _
    _ = FALLBACK_VOICES.length + 1 := by simp

/-- Witness for the amended C3 at the default primary voice with ten failing
attempt indices. -/
theorem c3_no_early_stop_witness :
    gDefault.cancelled = false ∧
    (generate_audio_async gDefault oracleFail "t" "o" 10).iters = 10 ∧
    (generate_audio_async gDefault oracleFail "t" "o" 10).calls.length ≤
      FALLBACK_VOICES.length + 1 := by
  have h := c3_no_early_stop gDefault oracleFail "t" "o" 10 rfl
    (fun j req => by simp [oracleFail])
  exact ⟨rfl, h.1, h.2.2.2.2⟩

/-! ## C4 -/

/-- Counterexample to C4 as stated: with the batch default of three attempt
indices and a primary outside the fallback pool, a run in which every call
fails makes exactly three synthesis calls while the distinct candidate voices
number five, so the claimed call-count equality fails. -/
theorem c4_counterexample :
    (generate_audio_async gOk oracleFail "t" "o" 3).success = false ∧
    (generate_audio_async gOk oracleFail "t" "o" 3).calls.length = 3 ∧
    (insert gOk.voice FALLBACK_VOICES.toFinset).card = 5 ∧
    (generate_audio_async gOk oracleFail "t" "o" 3).calls.length ≠
      (insert gOk.voice FALLBACK_VOICES.toFinset).card := by
  decide

lemma cons_filter_length_eq_card (primary : String) :
    (primary :: FALLBACK_VOICES.filter (fun v => v ≠ primary)).length =
      (insert primary FALLBACK_VOICES.toFinset).card := by
  by_cases h0 : primary = "zh-CN-XiaoxiaoNeural"
  · subst h0; decide
  · by_cases h1 : primary = "zh-CN-YunxiNeural"
    · subst h1; decide
    · by_cases h2 : primary = "zh-CN-XiaoyiNeural"
      · subst h2; decide
      · by_cases h3 : primary = "zh-CN-YunjianNeural"
        · subst h3; decide
        · have e0 : "zh-CN-XiaoxiaoNeural" ≠ primary := fun h => h0 h.symm
          have e1 : "zh-CN-YunxiNeural" ≠ primary := fun h => h1 h.symm
          have e2 : "zh-CN-XiaoyiNeural" ≠ primary := fun h => h2 h.symm
          have e3 : "zh-CN-YunjianNeural" ≠ primary := fun h => h3 h.symm
          have hnot : primary ∉ FALLBACK_VOICES.toFinset := by
            simp [FALLBACK_VOICES, h0, h1, h2, h3]
          rw [Finset.card_insert_of_not_mem hnot]
          have hfilt : FALLBACK_VOICES.filter (fun v => v ≠ primary) = FALLBACK_VOICES := by
            simp [FALLBACK_VOICES, e0, e1, e2, e3]
          rw [hfilt]
          have hcard : FALLBACK_VOICES.toFinset.card = 4 := by decide
          rw [hcard]
          rfl

/-- C4 amended: in an uncancelled run where every synthesis call fails, no
voice is called twice and the returned error is the all-voices-failed message
carrying the failure message of the last attempted voice; when additionally
max_retries is at least one more than the length of the fallback list — the
counterexample shows the count part fails below that — the number of synthesis
calls equals the number of distinct candidate voices. -/
theorem c4_exhaustion (g : TTSGenerator) (oracle : SynthOracle)
    (text output_path : String) (max_retries : Nat)
    (hc : g.cancelled = false) (hfail : ∀ j req, oracle j req ≠ none)
    (hm : FALLBACK_VOICES.length + 1 ≤ max_retries) :
    (generate_audio_async g oracle text output_path max_retries).success = false ∧
    (generate_audio_async g oracle text output_path max_retries).calls.Nodup ∧
    (generate_audio_async g oracle text output_path max_retries).calls =
      g.voice :: FALLBACK_VOICES.filter (fun v => v ≠ g.voice) ∧
    (generate_audio_async g oracle text output_path max_retries).calls.length =
      (insert g.voice FALLBACK_VOICES.toFinset).card ∧
    (generate_audio_async g oracle text output_path max_retries).error =
      "所有音色都失败，最后错误: " ++
        (oracle
          ((generate_audio_async g oracle text output_path max_retries).calls.length - 1)
          (mkRequest text
            ((generate_audio_async g oracle text output_path
              max_retries).calls.getLast?.getD "")
            g.rate g.volume g.pitch output_path)).getD "" := by
  obtain ⟨d, rfl⟩ : ∃ d, max_retries = 5 + d := ⟨max_retries - 5, by
    have : FALLBACK_VOICES.length = 4 := rfl
    omega⟩
  obtain ⟨h1, _, h3, h4⟩ :=
    genLoop_allfail g oracle text output_path hc hfail (5 + d) 0 [] ""
  have hgen : generate_audio_async g oracle text output_path (5 + d) =
      genLoop g oracle text output_path 0 (5 + d) [] "" := by
    simp only [generate_audio_async, hc, Bool.false_eq_true, if_false]
  rw [List.nil_append] at h3
  have hfull : plannedFrom g.voice 0 (5 + d) [] =
      g.voice :: FALLBACK_VOICES.filter (fun v => v ≠ g.voice) := plannedCalls_full g.voice d
  have hcalls : (genLoop g oracle text output_path 0 (5 + d) [] "").calls =
      g.voice :: FALLBACK_VOICES.filter (fun v => v ≠ g.voice) := by rw [h3, hfull]
  have hnodup : (genLoop g oracle text output_path 0 (5 + d) [] "").calls.Nodup := by
    rw [h3]
    have := plannedFrom_nodup g.voice (5 + d) 0 [] List.nodup_nil
    simpa using this
  have hne : plannedFrom g.voice 0 (5 + d) [] ≠ [] := by
    rw [hfull]; simp
  rw [hgen]
  refine ⟨h1, hnodup, hcalls, ?_, ?_⟩
  · rw [hcalls]
    exact cons_filter_length_eq_card g.voice
  · rw [h4, if_neg hne, h3]
    have hlen0 : ([] : List String).length + (plannedFrom g.voice 0 (5 + d) []).length - 1 =
        (plannedFrom g.voice 0 (5 + d) []).length - 1 := by simp
    rw [hlen0]

/-- Witness for the amended C4 with six failing attempt indices and a primary
outside the fallback pool. -/
theorem c4_exhaustion_witness :
    FALLBACK_VOICES.length + 1 ≤ 6 ∧
    (generate_audio_async gOk oracleFail "t" "o" 6).calls =
      gOk.voice :: FALLBACK_VOICES.filter (fun v => v ≠ gOk.voice) ∧
    (generate_audio_async gOk oracleFail "t" "o" 6).calls.length =
      (insert gOk.voice FALLBACK_VOICES.toFinset).card := by
  have h := c4_exhaustion gOk oracleFail "t" "o" 6 rfl
    (fun j req => by simp [oracleFail]) (by decide)
  exact ⟨by decide, h.2.2.1, h.2.2.2.1⟩

/-! ## C6 -/

/-- The progress stream, characterised for any completion order and any fault
pattern: the completed counts climb by one from the incoming counter, one
event per non-faulting completed task, in completion order, with the batch
size as total; faulting coroutines contribute nothing. -/
lemma progressAux_trace (g : TTSGenerator) (oracle : Nat → SynthOracle)
    (fault : Nat → Option String) (tasks : List TTSTask) (total : Nat) :
    ∀ (order : List Nat) (completed : Nat),
      (progressAux g oracle fault tasks total completed order).map (fun e => e.1) =
        (List.range (order.filter (fun p => (fault p).isNone)).length).map
          (fun k => completed + k + 1) ∧
      (progressAux g oracle fault tasks total completed order).map (fun e => e.2.2) =
        (order.filter (fun p => (fault p).isNone)).map
          (fun p => (process_task g (oracle p) (tasks.getD p defaultTask)).result) ∧
      ∀ e ∈ progressAux g oracle fault tasks total completed order, e.2.1 = total := by
  intro order
  induction order with
  | nil =>
    intro completed
    refine ⟨rfl, rfl, ?_⟩
    intro e he
    simp [progressAux] at he
  | cons p rest ih =>
    intro completed
    cases hf : fault p with
    | some msg =>
      obtain ⟨i1, i2, i3⟩ := ih completed
      refine ⟨?_, ?_, ?_⟩
      · simp only [progressAux, hf, List.filter_cons, Option.isNone_some,
          Bool.false_eq_true, if_false]
        exact i1
      · simp only [progressAux, hf, List.filter_cons, Option.isNone_some,
          Bool.false_eq_true, if_false]
        exact i2
      · intro e he
        simp only [progressAux, hf] at he
        exact i3 e he
    | none =>
      obtain ⟨i1, i2, i3⟩ := ih (completed + 1)
      refine ⟨?_, ?_, ?_⟩
      · simp only [progressAux, hf, List.filter_cons, Option.isNone_none, if_true,
          List.map_cons, List.length_cons]
        rw [i1, List.range_succ_eq_map, List.map_cons, List.map_map]
        refine congrArg₂ _ rfl ?_
        apply List.map_congr_left
        intro k _
        simp only [Function.comp]
        omega
      · simp only [progressAux, hf, List.filter_cons, Option.isNone_none, if_true,
          List.map_cons]
        rw [i2]
      · intro e he
        simp only [progressAux, hf, List.mem_cons] at he
        rcases he with he | he
        · rw [he]
        · exact i3 e he

/-- Counterexample to C6 as stated: in a two-task batch whose first coroutine
raises an internal exception before its progress step, the progress stream
holds a single event, so the callback is not invoked once per supplied task
and the completed counts never reach the total of two. -/
theorem c6_counterexample :
    tasksTwo.length = 2 ∧
    (progressTrace gOk (fun _ => oracleOk) (fun p => if p = 0 then some "boom" else none)
      tasksTwo [0, 1]).map (fun e => e.1) = [1] ∧
    (progressTrace gOk (fun _ => oracleOk) (fun p => if p = 0 then some "boom" else none)
      tasksTwo [0, 1]).length = 1 := by
  decide

/-- C6 amended: for any completion order of the batch, the progress callback
is invoked exactly once per task whose coroutine does not raise an internal
exception, after that task finishes, with the batch size as total; the
completed counts observed are exactly 1, 2, ..., k where k is the number of
non-faulting tasks, so when no coroutine faults they are 1, ..., totalCount
with each non-faulting task reported exactly once — but a task whose
coroutine raises before the progress step yields no notification at all. -/
theorem c6_progress_monotone (g : TTSGenerator) (oracle : Nat → SynthOracle)
    (fault : Nat → Option String) (tasks : List TTSTask) (order : List Nat)
    (hperm : order.Perm (List.range tasks.length)) :
    (progressTrace g oracle fault tasks order).map (fun e => e.1) =
      (List.range (order.filter (fun p => (fault p).isNone)).length).map
        (fun k => k + 1) ∧
    (progressTrace g oracle fault tasks order).map (fun e => e.2.2) =
      (order.filter (fun p => (fault p).isNone)).map
        (fun p => (process_task g (oracle p) (tasks.getD p defaultTask)).result) ∧
    (∀ e ∈ progressTrace g oracle fault tasks order, e.2.1 = tasks.length) ∧
    ((∀ p, p < tasks.length → fault p = none) →
      (progressTrace g oracle fault tasks order).map (fun e => e.1) =
        (List.range tasks.length).map (fun k => k + 1) ∧
      ((progressTrace g oracle fault tasks order).map (fun e => e.2.2)).Perm
        ((List.range tasks.length).map
          (fun p => (process_task g (oracle p) (tasks.getD p defaultTask)).result))) := by
  unfold progressTrace
  obtain ⟨i1, i2, i3⟩ := progressAux_trace g oracle fault tasks tasks.length order 0
  have hz : ∀ n : Nat, (List.range n).map (fun k => 0 + k + 1) =
      (List.range n).map (fun k => k + 1) := by
    intro n
    apply List.map_congr_left
    intro k _
    omega
  refine ⟨by rw [i1, hz], i2, i3, ?_⟩
  intro hnf
  have hkeep : order.filter (fun p => (fault p).isNone) = order := by
    rw [List.filter_eq_self]
    intro p hp
    have hpr : p ∈ List.range tasks.length := hperm.mem_iff.mp hp
    have hplt : p < tasks.length := List.mem_range.mp hpr
    rw [hnf p hplt]
    rfl
  constructor
  · rw [i1, hz, hkeep, hperm.length_eq, List.length_range]
  · rw [i2, hkeep]
    exact List.Perm.map _ hperm

/-- Witness for the amended C6 with a two-task batch completing in reverse
order and a fault on neither coroutine. -/
theorem c6_progress_monotone_witness :
    ([1, 0] : List Nat).Perm (List.range tasksTwo.length) ∧
    (progressTrace gOk (fun _ => oracleOk) (fun _ => none) tasksTwo [1, 0]).map
      (fun e => e.1) = [1, 2] ∧
    (∀ e ∈ progressTrace gOk (fun _ => oracleOk) (fun _ => none) tasksTwo [1, 0],
      e.2.1 = tasksTwo.length) := by
  have h := c6_progress_monotone gOk (fun _ => oracleOk) (fun _ => none) tasksTwo [1, 0]
    (by decide)
  refine ⟨by decide, ?_, h.2.2.1⟩
  have h4 := (h.2.2.2 (fun p _ => rfl)).1
  rw [h4]
  decide

/-! ## C8 -/

lemma countRunning_replicate_waiting : ∀ n : Nat,
    countRunning (List.replicate n TaskPhase.waiting) = 0 := by
  intro n
  induction n with
  | zero => rfl
  | succ n ih => simp [List.replicate_succ, countRunning, ih]

lemma getD_done_lt {l : List TaskPhase} {i : Nat} {a : TaskPhase}
    (ha : a ≠ TaskPhase.done) (h : l.getD i TaskPhase.done = a) : i < l.length := by
  by_contra hge
  rw [List.getD_eq_default _ _ (by omega)] at h
  exact ha h.symm

lemma countRunning_set (b : TaskPhase) :
    ∀ (l : List TaskPhase) (i : Nat), i < l.length →
      countRunning (l.set i b) +
        (if l.getD i TaskPhase.done = TaskPhase.running then 1 else 0) =
      countRunning l + (if b = TaskPhase.running then 1 else 0) := by
  intro l
  induction l with
  | nil => intro i hi; simp at hi
  | cons a rest ih =>
    intro i hi
    cases i with
    | zero =>
      simp only [List.set_cons_zero, countRunning, List.getD_cons_zero]
      omega
    | succ i =>
      simp only [List.set_cons_succ, countRunning, List.getD_cons_succ]
      have := ih i (by simpa using hi)
      omega

/-- One admission-gate step preserves the sum of the semaphore counter and the
number of running coroutines. -/
lemma semStep_invariant {s s' : SemState} (mc : Nat) (h : SemStep s s')
    (hinv : s.sem + countRunning s.phases = mc) :
    s'.sem + countRunning s'.phases = mc := by
  cases h with
  | acquire i hw hs =>
    have hi : i < s.phases.length := getD_done_lt (by simp) hw
    have hcs := countRunning_set TaskPhase.running s.phases i hi
    rw [hw] at hcs
    simp at hcs
    show s.sem - 1 + countRunning (s.phases.set i TaskPhase.running) = mc
    omega
  | release i hr =>
    have hi : i < s.phases.length := getD_done_lt (by simp) hr
    have hcs := countRunning_set TaskPhase.done s.phases i hi
    rw [hr] at hcs
    simp at hcs
    show s.sem + 1 + countRunning (s.phases.set i TaskPhase.done) = mc
    omega

lemma semReachable_invariant (mc n : Nat) (s : SemState) (h : SemReachable mc n s) :
    s.sem + countRunning s.phases = mc := by
  induction h with
  | refl => simp [semInit, countRunning_replicate_waiting]
  | tail _ hstep ih => exact semStep_invariant mc hstep ih

/-- C8: in every state a batch run can reach, at most max_concurrent
coroutines are inside the semaphore-guarded block, that is, at most
max_concurrent synthesizer invocations are in flight; the remaining
coroutines wait for a slot. -/
theorem c8_concurrency_cap (max_concurrent n : Nat) (s : SemState)
    (hmc : 1 ≤ max_concurrent) (h : SemReachable max_concurrent n s) :
    countRunning s.phases ≤ max_concurrent := by
  have := semReachable_invariant max_concurrent n s h
  omega

/-- Witness for C8: with a cap of two and three tasks, the state after one
admission is reachable and satisfies the bound. -/
theorem c8_concurrency_cap_witness :
    (1 ≤ 2 ∧ SemReachable 2 3
      { sem := 1, phases := [TaskPhase.running, TaskPhase.waiting, TaskPhase.waiting] }) ∧
    countRunning [TaskPhase.running, TaskPhase.waiting, TaskPhase.waiting] ≤ 2 := by
  have hstep0 := SemStep.acquire (semInit 2 3) 0 (by decide) (by decide)
  have hst :
      ({ sem := (semInit 2 3).sem - 1, phases := (semInit 2 3).phases.set 0 TaskPhase.running } :
        SemState) =
      { sem := 1, phases := [TaskPhase.running, TaskPhase.waiting, TaskPhase.waiting] } := by
    decide
  rw [hst] at hstep0
  have hreach : SemReachable 2 3
      { sem := 1, phases := [TaskPhase.running, TaskPhase.waiting, TaskPhase.waiting] } :=
    Relation.ReflTransGen.single hstep0
  exact ⟨⟨by decide, hreach⟩,
    c8_concurrency_cap 2 3 _ (by decide) hreach⟩

/-! ## C9 -/

/-- The end-to-end example batch of the spec: one normal task and one
empty-text task. -/
def tasksWithEmpty : List TTSTask :=
  [{ text := "Hello", output_path := "a.mp3", index := 1 },
   { text := "", output_path := "b.mp3", index := 2 }]

lemma process_task_not_cancelled (g : TTSGenerator) (o : SynthOracle) (t : TTSTask)
    (hc : g.cancelled = false) :
    process_task g o t =
      { result :=
          { index := t.index, output_path := t.output_path,
            success := (generate_audio_async g o t.text t.output_path 3).success,
            text_preview := getTextPreview t.text,
            error := (generate_audio_async g o t.text t.output_path 3).error },
        calls := (generate_audio_async g o t.text t.output_path 3).calls,
        iters := (generate_audio_async g o t.text t.output_path 3).iters } := by
  simp [process_task, hc]

/-- Counterexample to C9 as stated: in the spec's own example batch the
empty-text task is not short-circuited: two synthesis calls are submitted for
it (the primary and one fallback voice each receive the empty text), and its
outcome carries the generic all-voices-failed message rather than one
indicating empty text. -/
theorem c9_counterexample :
    (tasksWithEmpty.getD 1 defaultTask).text = "" ∧
    (process_task gOk (fun _ _ => some "no audio received")
      (tasksWithEmpty.getD 1 defaultTask)).calls.length = 3 ∧
    (batch_generate gOk
        (fun p => if p = 0 then oracleOk else fun _ _ => some "no audio received")
        (fun _ => none) tasksWithEmpty 5).getD 1 defaultResult =
      { index := 2, output_path := "b.mp3", success := false, text_preview := "",
        error := "所有音色都失败，最后错误: no audio received" } ∧
    (batch_generate gOk
        (fun p => if p = 0 then oracleOk else fun _ _ => some "no audio received")
        (fun _ => none) tasksWithEmpty 5).getD 0 defaultResult =
      { index := 1, output_path := "a.mp3", success := true, text_preview := "Hello",
        error := "" } := by
  decide

/-- C9 amended: the engine has no empty-text special case: a task whose text
is empty is dispatched to the synthesis client like any other, so when its
calls all fail its outcome is a failed result carrying the all-voices-failed
message (not an empty-text message) after at least one synthesis call; the
batch still returns one result per task and the other tasks are unaffected. -/
theorem c9_empty_text_not_special (g : TTSGenerator) (oracle : Nat → SynthOracle)
    (fault : Nat → Option String) (tasks : List TTSTask) (max_concurrent i : Nat)
    (hc : g.cancelled = false) (hi : i < tasks.length) (hfi : fault i = none)
    (hempty : (tasks.getD i defaultTask).text = "")
    (hfail : ∀ j req, oracle i j req ≠ none) :
    (batch_generate g oracle fault tasks max_concurrent).getD i defaultResult =
      (process_task g (oracle i) (tasks.getD i defaultTask)).result ∧
    (process_task g (oracle i) (tasks.getD i defaultTask)).calls ≠ [] ∧
    (process_task g (oracle i) (tasks.getD i defaultTask)).result.success = false ∧
    (∃ lastMsg, (process_task g (oracle i) (tasks.getD i defaultTask)).result.error =
      "所有音色都失败，最后错误: " ++ lastMsg) ∧
    (batch_generate g oracle fault tasks max_concurrent).length = tasks.length ∧
    (∀ j, j < tasks.length → j ≠ i → fault j = none →
      (batch_generate g oracle fault tasks max_concurrent).getD j defaultResult =
        (process_task g (oracle j) (tasks.getD j defaultTask)).result) := by
  obtain ⟨h1, _, h3, h4⟩ := genLoop_allfail g (oracle i)
    (tasks.getD i defaultTask).text (tasks.getD i defaultTask).output_path hc hfail 3 0 [] ""
  have hgen : generate_audio_async g (oracle i) (tasks.getD i defaultTask).text
      (tasks.getD i defaultTask).output_path 3 =
      genLoop g (oracle i) (tasks.getD i defaultTask).text
        (tasks.getD i defaultTask).output_path 0 3 [] "" := by
    simp only [generate_audio_async, hc, Bool.false_eq_true, if_false]
  have hpt := process_task_not_cancelled g (oracle i) (tasks.getD i defaultTask) hc
  have hplan : plannedFrom g.voice 0 3 [] =
      g.voice :: plannedFrom g.voice 1 2 ([] ++ [attemptVoice g.voice 0]) := by
    have := plannedFrom_cons g.voice 0 2 [] (by simp)
    simpa using this
  rw [List.nil_append] at h3
  refine ⟨?_, ?_, ?_, ?_, batch_generate_length g oracle fault tasks max_concurrent, ?_⟩
  · rw [batch_generate_getD g oracle fault tasks max_concurrent i hi]
    unfold expectedResult
    rw [hfi]
  · rw [hpt]
    simp only [hgen]
    rw [h3, hplan]
    simp
  · rw [hpt]
    simp only [hgen]
    exact h1
  · rw [hpt]
    simp only [hgen]
    exact ⟨_, h4⟩
  · intro j hj hji hfj
    rw [batch_generate_getD g oracle fault tasks max_concurrent j hj]
    unfold expectedResult
    rw [hfj]

/-- Witness for the amended C9 on the spec's example batch. -/
theorem c9_empty_text_not_special_witness :
    (tasksWithEmpty.getD 1 defaultTask).text = "" ∧
    (process_task gOk
      ((fun p => if p = 0 then oracleOk else fun _ _ => some "no audio received") 1)
      (tasksWithEmpty.getD 1 defaultTask)).calls ≠ [] ∧
    (process_task gOk
      ((fun p => if p = 0 then oracleOk else fun _ _ => some "no audio received") 1)
      (tasksWithEmpty.getD 1 defaultTask)).result.success = false := by
  have h := c9_empty_text_not_special gOk
    (fun p => if p = 0 then oracleOk else fun _ _ => some "no audio received")
    (fun _ => none) tasksWithEmpty 5 1 rfl (by decide) rfl rfl
    (fun j req => by simp)
  exact ⟨rfl, h.2.1, h.2.2.1⟩

/-! ## C10 -/

/-- A generator configured with the third fallback voice as its primary. -/
def gXiaoyi : TTSGenerator :=
  { voice := "zh-CN-XiaoyiNeural", rate := "+0%", volume := "+0%", pitch := "default",
    cancelled := false }

/-- Counterexample to C10 as stated: when the third fallback voice is
configured as the primary, the batch path does attempt
FALLBACK_VOICES[2] (as attempt 0), so it is not true that this voice is never
attempted via the batch path. -/
theorem c10_counterexample :
    gXiaoyi.voice = FALLBACK_VOICES.getD 2 "" ∧
    FALLBACK_VOICES.getD 2 "" ∈
      (process_task gXiaoyi oracleFail (tasksTwo.getD 0 defaultTask)).calls ∧
    FALLBACK_VOICES.getD 2 "" ∈ batchCalls gXiaoyi (fun _ => oracleFail) 0 tasksTwo := by
  decide

lemma genLoop_cancelled (g : TTSGenerator) (oracle : SynthOracle)
    (text output_path : String) (hb : g.cancelled = true)
    (attempt r : Nat) (tried : List String) (lastError : String) :
    genLoop g oracle text output_path attempt (r + 1) tried lastError =
      { success := false, error := "任务已取消", calls := tried, iters := attempt } := by
  simp [genLoop, hb]

lemma genLoop_skip (g : TTSGenerator) (oracle : SynthOracle)
    (text output_path : String) (hc : g.cancelled = false)
    (attempt r : Nat) (tried : List String) (lastError : String)
    (hskip : (attempt ≠ 0 ∧ attemptVoice g.voice attempt = g.voice) ∨
      attemptVoice g.voice attempt ∈ tried) :
    genLoop g oracle text output_path attempt (r + 1) tried lastError =
      genLoop g oracle text output_path (attempt + 1) r tried lastError := by
  simp only [genLoop, hc, Bool.false_eq_true, if_false, if_pos hskip]

lemma genLoop_call_ok (g : TTSGenerator) (oracle : SynthOracle)
    (text output_path : String) (hc : g.cancelled = false)
    (attempt r : Nat) (tried : List String) (lastError : String)
    (hskip : ¬((attempt ≠ 0 ∧ attemptVoice g.voice attempt = g.voice) ∨
      attemptVoice g.voice attempt ∈ tried))
    (horacle : oracle tried.length
      (mkRequest text (attemptVoice g.voice attempt) g.rate g.volume g.pitch output_path) =
      none) :
    genLoop g oracle text output_path attempt (r + 1) tried lastError =
      { success := true, error := "",
        calls := tried ++ [attemptVoice g.voice attempt], iters := attempt + 1 } := by
  simp only [genLoop, hc, Bool.false_eq_true, if_false, if_neg hskip, horacle]

lemma genLoop_call_fail (g : TTSGenerator) (oracle : SynthOracle)
    (text output_path : String) (hc : g.cancelled = false)
    (attempt r : Nat) (tried : List String) (lastError msg : String)
    (hskip : ¬((attempt ≠ 0 ∧ attemptVoice g.voice attempt = g.voice) ∨
      attemptVoice g.voice attempt ∈ tried))
    (horacle : oracle tried.length
      (mkRequest text (attemptVoice g.voice attempt) g.rate g.volume g.pitch output_path) =
      some msg) :
    genLoop g oracle text output_path attempt (r + 1) tried lastError =
      genLoop g oracle text output_path (attempt + 1) r
        (tried ++ [attemptVoice g.voice attempt]) msg := by
  simp only [genLoop, hc, Bool.false_eq_true, if_false, if_neg hskip, horacle]

lemma genLoop_iters_le (g : TTSGenerator) (oracle : SynthOracle) (text output_path : String) :
    ∀ (remaining attempt : Nat) (tried : List String) (lastError : String),
      (genLoop g oracle text output_path attempt remaining tried lastError).iters ≤
        attempt + remaining := by
  intro remaining
  induction remaining with
  | zero => intro attempt tried lastError; exact Nat.le_refl _
  | succ r ih =>
    intro attempt tried lastError
    cases hb : g.cancelled with
    | true =>
      rw [genLoop_cancelled g oracle text output_path hb attempt r tried lastError]
      show attempt ≤ attempt + (r + 1)
      omega
    | false =>
      by_cases hskip :
          (attempt ≠ 0 ∧ attemptVoice g.voice attempt = g.voice) ∨
            attemptVoice g.voice attempt ∈ tried
      · rw [genLoop_skip g oracle text output_path hb attempt r tried lastError hskip]
        have := ih (attempt + 1) tried lastError
        omega
      · cases horacle : oracle tried.length
            (mkRequest text (attemptVoice g.voice attempt) g.rate g.volume g.pitch
              output_path) with
        | none =>
          rw [genLoop_call_ok g oracle text output_path hb attempt r tried lastError
            hskip horacle]
          show attempt + 1 ≤ attempt + (r + 1)
          omega
        | some msg =>
          rw [genLoop_call_fail g oracle text output_path hb attempt r tried lastError msg
            hskip horacle]
          have := ih (attempt + 1) (tried ++ [attemptVoice g.voice attempt]) msg
          omega

lemma genLoop_calls_length (g : TTSGenerator) (oracle : SynthOracle)
    (text output_path : String) :
    ∀ (remaining attempt : Nat) (tried : List String) (lastError : String),
      (genLoop g oracle text output_path attempt remaining tried lastError).calls.length ≤
        tried.length + remaining := by
  intro remaining
  induction remaining with
  | zero => intro attempt tried lastError; exact Nat.le_refl _
  | succ r ih =>
    intro attempt tried lastError
    cases hb : g.cancelled with
    | true =>
      rw [genLoop_cancelled g oracle text output_path hb attempt r tried lastError]
      show tried.length ≤ tried.length + (r + 1)
      omega
    | false =>
      by_cases hskip :
          (attempt ≠ 0 ∧ attemptVoice g.voice attempt = g.voice) ∨
            attemptVoice g.voice attempt ∈ tried
      · rw [genLoop_skip g oracle text output_path hb attempt r tried lastError hskip]
        have := ih (attempt + 1) tried lastError
        omega
      · cases horacle : oracle tried.length
            (mkRequest text (attemptVoice g.voice attempt) g.rate g.volume g.pitch
              output_path) with
        | none =>
          rw [genLoop_call_ok g oracle text output_path hb attempt r tried lastError
            hskip horacle]
          show (tried ++ [attemptVoice g.voice attempt]).length ≤ tried.length + (r + 1)
          simp
        | some msg =>
          rw [genLoop_call_fail g oracle text output_path hb attempt r tried lastError msg
            hskip horacle]
          have := ih (attempt + 1) (tried ++ [attemptVoice g.voice attempt]) msg
          simp only [List.length_append, List.length_cons, List.length_nil] at this ⊢
          omega

lemma genLoop_calls_mem (g : TTSGenerator) (oracle : SynthOracle)
    (text output_path : String) :
    ∀ (remaining attempt : Nat) (tried : List String) (lastError : String) (v : String),
      v ∈ (genLoop g oracle text output_path attempt remaining tried lastError).calls →
      v ∈ tried ∨ ∃ k, attempt ≤ k ∧ k < attempt + remaining ∧ v = attemptVoice g.voice k := by
  intro remaining
  induction remaining with
  | zero => intro attempt tried lastError v hv; exact Or.inl hv
  | succ r ih =>
    intro attempt tried lastError v hv
    cases hb : g.cancelled with
    | true =>
      rw [genLoop_cancelled g oracle text output_path hb attempt r tried lastError] at hv
      exact Or.inl hv
    | false =>
      by_cases hskip :
          (attempt ≠ 0 ∧ attemptVoice g.voice attempt = g.voice) ∨
            attemptVoice g.voice attempt ∈ tried
      · rw [genLoop_skip g oracle text output_path hb attempt r tried lastError hskip] at hv
        rcases ih (attempt + 1) tried lastError v hv with h | ⟨k, hk1, hk2, hk3⟩
        · exact Or.inl h
        · exact Or.inr ⟨k, by omega, by omega, hk3⟩
      · cases horacle : oracle tried.length
            (mkRequest text (attemptVoice g.voice attempt) g.rate g.volume g.pitch
              output_path) with
        | none =>
          rw [genLoop_call_ok g oracle text output_path hb attempt r tried lastError
            hskip horacle] at hv
          simp only [List.mem_append, List.mem_singleton] at hv
          rcases hv with h | h
          · exact Or.inl h
          · exact Or.inr ⟨attempt, Nat.le_refl _, by omega, h⟩
        | some msg =>
          rw [genLoop_call_fail g oracle text output_path hb attempt r tried lastError msg
            hskip horacle] at hv
          rcases ih (attempt + 1) (tried ++ [attemptVoice g.voice attempt]) msg v hv with
            h | ⟨k, hk1, hk2, hk3⟩
          · rcases List.mem_append.mp h with h | h
            · exact Or.inl h
            · exact Or.inr ⟨attempt, Nat.le_refl _, by omega,
                List.mem_singleton.mp h⟩
          · exact Or.inr ⟨k, by omega, by omega, hk3⟩

/-- C10 amended: batch_generate invokes generate_audio_async with the default
max_retries of three, so each task's retry loop walks at most three attempt
indices and submits at most three synthesis calls, every submitted voice being
the primary or one of the first two fallback entries; hence
FALLBACK_VOICES[2] and FALLBACK_VOICES[3] are reached via the batch path only
when one of them is the configured primary voice, never by the fallback
rotation. -/
theorem c10_batch_retry_budget (g : TTSGenerator) (oracle : Nat → SynthOracle)
    (fault : Nat → Option String) (tasks : List TTSTask) (max_concurrent i : Nat)
    (hi : i < tasks.length) (hfi : fault i = none) :
    (batch_generate g oracle fault tasks max_concurrent).getD i defaultResult =
      (process_task g (oracle i) (tasks.getD i defaultTask)).result ∧
    (process_task g (oracle i) (tasks.getD i defaultTask)).iters ≤ 3 ∧
    (process_task g (oracle i) (tasks.getD i defaultTask)).calls.length ≤ 3 ∧
    (∀ v ∈ (process_task g (oracle i) (tasks.getD i defaultTask)).calls,
      v = g.voice ∨ v = FALLBACK_VOICES.getD 0 "" ∨ v = FALLBACK_VOICES.getD 1 "") ∧
    (g.voice ≠ FALLBACK_VOICES.getD 2 "" →
      FALLBACK_VOICES.getD 2 "" ∉
        (process_task g (oracle i) (tasks.getD i defaultTask)).calls) ∧
    (g.voice ≠ FALLBACK_VOICES.getD 3 "" →
      FALLBACK_VOICES.getD 3 "" ∉
        (process_task g (oracle i) (tasks.getD i defaultTask)).calls) := by
  have hfirst : (batch_generate g oracle fault tasks max_concurrent).getD i defaultResult =
      (process_task g (oracle i) (tasks.getD i defaultTask)).result := by
    rw [batch_generate_getD g oracle fault tasks max_concurrent i hi]
    unfold expectedResult
    rw [hfi]
  have hmem : ∀ v ∈ (process_task g (oracle i) (tasks.getD i defaultTask)).calls,
      v = g.voice ∨ v = FALLBACK_VOICES.getD 0 "" ∨ v = FALLBACK_VOICES.getD 1 "" := by
    intro v hv
    by_cases hcc : g.cancelled = true
    · simp [process_task, hcc] at hv
    · have hc : g.cancelled = false := by
        cases hb : g.cancelled
        · rfl
        · exact absurd hb hcc
      rw [process_task_not_cancelled g (oracle i) (tasks.getD i defaultTask) hc] at hv
      simp only [generate_audio_async, hc, Bool.false_eq_true, if_false] at hv
      rcases genLoop_calls_mem g (oracle i) (tasks.getD i defaultTask).text
          (tasks.getD i defaultTask).output_path 3 0 [] "" v hv with h | ⟨k, hk1, hk2, hk3⟩
      · simp at h
      · match k, hk2 with
        | 0, _ => exact Or.inl hk3
        | 1, _ => exact Or.inr (Or.inl hk3)
        | 2, _ => exact Or.inr (Or.inr hk3)
  refine ⟨hfirst, ?_, ?_, hmem, ?_, ?_⟩
  · by_cases hcc : g.cancelled = true
    · simp [process_task, hcc]
    · have hc : g.cancelled = false := by
        cases hb : g.cancelled
        · rfl
        · exact absurd hb hcc
      rw [process_task_not_cancelled g (oracle i) (tasks.getD i defaultTask) hc]
      simp only [generate_audio_async, hc, Bool.false_eq_true, if_false]
      have := genLoop_iters_le g (oracle i) (tasks.getD i defaultTask).text
        (tasks.getD i defaultTask).output_path 3 0 [] ""
      omega
  · by_cases hcc : g.cancelled = true
    · simp [process_task, hcc]
    · have hc : g.cancelled = false := by
        cases hb : g.cancelled
        · rfl
        · exact absurd hb hcc
      rw [process_task_not_cancelled g (oracle i) (tasks.getD i defaultTask) hc]
      simp only [generate_audio_async, hc, Bool.false_eq_true, if_false]
      have := genLoop_calls_length g (oracle i) (tasks.getD i defaultTask).text
        (tasks.getD i defaultTask).output_path 3 0 [] ""
      simpa using this
  · intro hne hmem2
    rcases hmem _ hmem2 with h | h | h
    · exact hne h.symm
    · exact absurd h (by decide)
    · exact absurd h (by decide)
  · intro hne hmem2
    rcases hmem _ hmem2 with h | h | h
    · exact hne h.symm
    · exact absurd h (by decide)
    · exact absurd h (by decide)

/-- Witness for the amended C10 on a concrete batch task. -/
theorem c10_batch_retry_budget_witness :
    0 < tasksTwo.length ∧
    (process_task gOk ((fun _ => oracleFail) 0) (tasksTwo.getD 0 defaultTask)).iters ≤ 3 ∧
    FALLBACK_VOICES.getD 2 "" ∉
      (process_task gOk ((fun _ => oracleFail) 0) (tasksTwo.getD 0 defaultTask)).calls := by
  have h := c10_batch_retry_budget gOk (fun _ => oracleFail) (fun _ => none) tasksTwo 5 0
    (by decide) rfl
  exact ⟨by decide, h.2.1, h.2.2.2.2.1 (by decide)⟩

